import Mathlib

/-!
Shallow embedding of the timetable generator of `app.py`
(`generate_timetable`, the randomized restart-based constraint solver),
together with proofs of the specified properties.

Modelling conventions:
* Python's global pseudo-random number generator is modelled as a
  deterministic stream of natural numbers (`RNG`); `random.shuffle` is
  modelled as random extraction driven by the stream (each step draws an
  index into the remaining list), and `random.randint(lo, hi)` draws one
  stream value reduced into the inclusive range.
* The `course_students` defaultdict is an association list threaded through
  the solver; an access to a missing key inserts an empty set, exactly as
  `collections.defaultdict(set)` does.
* `student_schedule` is a total function `student -> day -> list of slots`
  defaulting to `[]`; the Python dict is keyed by the students appearing in
  `student_df`, and every student the solver ever accesses comes from that
  frame, so the total-function view is extensionally the same state.
* Python sets (enrollment sets) are duplicate-free lists; all uses below are
  order-independent (membership tests and commutative sums).
-/

/-- Deterministic stream of naturals standing for the pseudo-random number
generator: `stream` lists the successive draws, `pos` is the next index. -/
structure RNG where
  stream : Nat → Nat
  pos : Nat

/-- Draw one value and advance the generator. -/
def RNG.next (g : RNG) : Nat × RNG := (g.stream g.pos, ⟨g.stream, g.pos + 1⟩)

/-- `random.randint(lo, hi)`: one draw reduced into the inclusive range. -/
def randint (g : RNG) (lo hi : Nat) : Nat × RNG :=
  let r := g.next
  (lo + r.1 % (hi + 1 - lo), r.2)

/-- `random.shuffle`, modelled as repeated random extraction: each step draws
an index into the remaining list and extracts that element.  The fuel is the
length of the list. -/
def shuffle_go {α : Type} : Nat → List α → RNG → List α × RNG
  | 0, _, g => ([], g)
  | _ + 1, [], g => ([], g)
  | n + 1, x :: xr, g =>
    let d := RNG.next g
    let i := d.1 % (x :: xr).length
    let r := shuffle_go n ((x :: xr).eraseIdx i) d.2
    ((x :: xr).getD i x :: r.1, r.2)

/-- Produce a random permutation of `xs` (model of `random.shuffle`). -/
def shuffle {α : Type} (g : RNG) (xs : List α) : List α × RNG :=
  shuffle_go xs.length xs g

/-- One row of `student_df` as far as the solver reads it
(`row['Student ID']` and `row['Subject']`; the student name is not used by
`generate_timetable`). -/
structure SRow where
  sid : String
  subject : String
deriving DecidableEq, Repr

/-- The `course_students` dictionary: course name to enrollment set. -/
abbrev CS := List (String × List String)

/-- The `course_info` dictionary: course name to instructor name. -/
abbrev CI := List (String × String)

/-- `days` of `generate_timetable`. -/
def days : List String :=
  ["Monday", "Tuesday", "Wednesday", "Thursday", "Friday"]

/-- `slots` of `generate_timetable`. -/
def slots : List String :=
  ["09:00 AM - 10:30 AM", "11:00 AM - 12:30 PM",
   "02:00 PM - 03:30 PM", "04:00 PM - 05:30 PM"]

/-- `available_times = [(d, s) for d in days for s in slots]`. -/
def available_times : List (String × String) :=
  days.flatMap fun d => slots.map fun s => (d, s)

/-- Reading `course_students` as a mapping: first binding wins, a missing key
reads as the empty set (`defaultdict(set)` semantics). -/
def dlookup : CS → String → List String
  | [], _ => []
  | (k, v) :: rest, subj => if k = subj then v else dlookup rest subj

/-- `course_students[subj]` on the defaultdict: returns the enrollment set
together with the dictionary after the access (a missing key is inserted,
bound to the empty set, at the end). -/
def dget : CS → String → List String × CS
  | [], subj => ([], [(subj, [])])
  | (k, v) :: rest, subj =>
    if k = subj then (v, (k, v) :: rest)
    else
      let r := dget rest subj
      (r.1, (k, v) :: r.2)

/-- `course_students[subj].add(sid)`: set insertion on the defaultdict. -/
def cs_add : CS → String → String → CS
  | [], subj, sid => [(subj, [sid])]
  | (k, v) :: rest, subj, sid =>
    if k = subj then (k, if sid ∈ v then v else v ++ [sid]) :: rest
    else (k, v) :: cs_add rest subj sid

/-- The `for _, row in student_df.iterrows()` loop building
`course_students`. -/
def course_students (df : List SRow) : CS :=
  df.foldl (fun cs r => cs_add cs r.subject r.sid) []

/-- `course_info.get(subj, "Unknown")`. -/
def info_get : CI → String → String
  | [], _ => "Unknown"
  | (k, v) :: rest, subj => if k = subj then v else info_get rest subj

/-- The `student_schedule` state: student and day to the list of occupied
slots that day. -/
abbrev Sched := String → String → List String

/-- A fresh `student_schedule` (every list empty). -/
def empty_sched : Sched := fun _ _ => []

/-- The penalty contribution of one student already holding `n` classes on
the candidate day (Constraint 3 of the source). -/
def contribution (n : Nat) : Int :=
  if n = 0 then -1000 else if n = 1 then -500 else if n = 2 then 100 else 500

/-- The `for student in enrolled_students` loop evaluating one candidate
slot: returns `(clash, daily_limit_reached, penalty)`, stopping at the first
student that triggers a hard-constraint skip. -/
def scan_students (sched : Sched) (day slot : String) : List String → Bool × Bool × Int
  | [] => (false, false, 0)
  | st :: rest =>
    if slot ∈ sched st day then (true, false, 0)
    else if 4 ≤ (sched st day).length then (false, true, 0)
    else
      let r := scan_students sched day slot rest
      (r.1, r.2.1, contribution (sched st day).length + r.2.2)

/-- The `for day, slot in available_times` loop with the
`best_time`/`best_penalty` accumulator (`best_penalty` starts at `inf`,
modelled by the accumulator starting at `none`). -/
def pick_best_go (sched : Sched) (enrolled : List String) :
    List (String × String) → Option ((String × String) × Int) → Option (String × String)
  | [], best =>
    match best with
    | none => none
    | some b => some b.1
  | c :: rest, best =>
    let r := scan_students sched c.1 c.2 enrolled
    if r.1 = false ∧ r.2.1 = false then
      match best with
      | none => pick_best_go sched enrolled rest (some (c, r.2.2))
      | some b =>
        if r.2.2 < b.2 then pick_best_go sched enrolled rest (some (c, r.2.2))
        else pick_best_go sched enrolled rest (some b)
    else pick_best_go sched enrolled rest best

/-- Selecting `best_time` for one course over the shuffled candidates. -/
def pick_best (sched : Sched) (enrolled : List String)
    (cands : List (String × String)) : Option (String × String) :=
  pick_best_go sched enrolled cands none

/-- `student_schedule[student][day].append(slot)` for each enrolled
student. -/
def update_schedule (sched : Sched) (enrolled : List String) (d s : String) : Sched :=
  enrolled.foldl
    (fun sc st => fun sid day =>
      if sid = st ∧ day = d then sc sid day ++ [s] else sc sid day)
    sched

/-- One record appended to `timetable`. -/
structure Entry where
  subject : String
  faculty : String
  day : String
  time_slot : String
  room : String
deriving DecidableEq, Repr

/-- The `for subj in all_subjects` loop of one attempt: returns
`(success, course_students, timetable, rng)`.  A course with no feasible
slot aborts the attempt (`success = false`). -/
def attempt_go (ci : CI) :
    List String → CS → Sched → List Entry → RNG → Bool × CS × List Entry × RNG
  | [], cs, _, tt, g => (true, cs, tt, g)
  | subj :: rest, cs, sched, tt, g =>
    let e := dget cs subj
    let sh := shuffle g available_times
    match pick_best sched e.1 sh.1 with
    | none => (false, e.2, tt, sh.2)
    | some ds =>
      let rm := randint sh.2 1 8
      attempt_go ci rest e.2 (update_schedule sched e.1 ds.1 ds.2)
        (tt ++ [⟨subj, info_get ci subj, ds.1, ds.2, "CR-" ++ toString rm.1⟩]) rm.2

/-- The `for attempt in range(100)` loop: shuffle the course order, run one
attempt from a fresh `student_schedule`, return on success; after the last
attempt return that attempt's (possibly incomplete) timetable.  Returns the
timetable together with the final `course_students` dictionary. -/
def solve_go (ci : CI) : Nat → CS → List String → RNG → List Entry × CS
  | 0, cs, _, _ => ([], cs)
  | n + 1, cs, subjects, g =>
    let sh := shuffle g subjects
    let r := attempt_go ci sh.1 cs empty_sched [] sh.2
    if r.1 then (r.2.2.1, r.2.1)
    else
      match n with
      | 0 => (r.2.2.1, r.2.1)
      | m + 1 => solve_go ci (m + 1) r.2.1 sh.1 r.2.2.2

/-- `generate_timetable(student_df, course_info)`: build `course_students`
from the student frame, take `all_subjects = list(course_info.keys())`, and
run up to 100 attempts. -/
def generate_timetable (df : List SRow) (ci : CI) (g : RNG) : List Entry :=
  (solve_go ci 100 (course_students df) (ci.map Prod.fst) g).1

/-! ## Randomness: equivalence and structural lemmas -/

/-- Two generator states are equivalent when they will produce the same
stream of draws from now on.  This captures "same seed": a seeded PRNG is
determined by the values it is going to emit. -/
def RNG.equiv (g g' : RNG) : Prop :=
  ∀ i, g.stream (g.pos + i) = g'.stream (g'.pos + i)

theorem RNG.equiv.next_fst {g g' : RNG} (h : g.equiv g') : g.next.1 = g'.next.1 := by
  simpa using h 0

theorem RNG.equiv.next_snd {g g' : RNG} (h : g.equiv g') : g.next.2.equiv g'.next.2 := by
  intro i
  simpa [RNG.next, Nat.add_assoc] using h (1 + i)

theorem randint_equiv {g g' : RNG} (h : g.equiv g') (lo hi : Nat) :
    (randint g lo hi).1 = (randint g' lo hi).1 ∧ (randint g lo hi).2.equiv (randint g' lo hi).2 := by
  refine ⟨?_, h.next_snd⟩
  simp [randint, h.next_fst]

theorem shuffle_go_equiv {α : Type} :
    ∀ (n : Nat) (xs : List α) {g g' : RNG}, g.equiv g' →
      (shuffle_go n xs g).1 = (shuffle_go n xs g').1 ∧
      (shuffle_go n xs g).2.equiv (shuffle_go n xs g').2
  | 0, _, _, _, h => ⟨rfl, h⟩
  | _ + 1, [], _, _, h => ⟨rfl, h⟩
  | n + 1, x :: xr, g, g', h => by
    have hfst := h.next_fst
    have hsnd := h.next_snd
    have ih := shuffle_go_equiv n ((x :: xr).eraseIdx (g.next.1 % (x :: xr).length)) hsnd
    simp only [shuffle_go, hfst] at ih ⊢
    exact ⟨by rw [ih.1], ih.2⟩

theorem shuffle_equiv {α : Type} (xs : List α) {g g' : RNG} (h : g.equiv g') :
    (shuffle g xs).1 = (shuffle g' xs).1 ∧ (shuffle g xs).2.equiv (shuffle g' xs).2 :=
  shuffle_go_equiv xs.length xs h

theorem shuffle_go_stream {α : Type} :
    ∀ (n : Nat) (xs : List α) (g : RNG), (shuffle_go n xs g).2.stream = g.stream
  | 0, _, _ => rfl
  | _ + 1, [], _ => rfl
  | n + 1, x :: xr, g =>
    shuffle_go_stream n ((x :: xr).eraseIdx (g.next.1 % (x :: xr).length)) g.next.2

theorem attempt_go_equiv (ci : CI) :
    ∀ (subjects : List String) (cs : CS) (sched : Sched) (tt : List Entry) {g g' : RNG},
      g.equiv g' →
      (attempt_go ci subjects cs sched tt g).1 = (attempt_go ci subjects cs sched tt g').1 ∧
      (attempt_go ci subjects cs sched tt g).2.1 = (attempt_go ci subjects cs sched tt g').2.1 ∧
      (attempt_go ci subjects cs sched tt g).2.2.1 = (attempt_go ci subjects cs sched tt g').2.2.1 ∧
      (attempt_go ci subjects cs sched tt g).2.2.2.equiv (attempt_go ci subjects cs sched tt g').2.2.2
  | [], _, _, _, _, _, h => ⟨rfl, rfl, rfl, h⟩
  | subj :: rest, cs, sched, tt, g, g', h => by
    obtain ⟨hsh, hg⟩ := shuffle_equiv available_times h
    have hri := randint_equiv hg 1 8
    simp only [attempt_go, hsh]
    cases hp : pick_best sched (dget cs subj).1 (shuffle g' available_times).1 with
    | none => exact ⟨rfl, rfl, rfl, hg⟩
    | some ds =>
      have := attempt_go_equiv ci rest (dget cs subj).2
        (update_schedule sched (dget cs subj).1 ds.1 ds.2)
        (tt ++ [⟨subj, info_get ci subj, ds.1, ds.2, "CR-" ++ toString (randint (shuffle g available_times).2 1 8).1⟩])
        hri.2
      simpa [hri.1] using this

theorem attempt_go_stream (ci : CI) :
    ∀ (subjects : List String) (cs : CS) (sched : Sched) (tt : List Entry) (g : RNG),
      (attempt_go ci subjects cs sched tt g).2.2.2.stream = g.stream
  | [], _, _, _, _ => rfl
  | subj :: rest, cs, sched, tt, g => by
    simp only [attempt_go]
    cases hp : pick_best sched (dget cs subj).1 (shuffle g available_times).1 with
    | none => exact shuffle_go_stream _ _ _
    | some ds =>
      rw [attempt_go_stream ci rest]
      simp [randint, RNG.next, shuffle, shuffle_go_stream]

/-! ## Permutation property of `shuffle` -/

theorem getD_cons_eraseIdx_perm {α : Type} :
    ∀ (l : List α) (i : Nat) (d : α), i < l.length → (l.getD i d :: l.eraseIdx i).Perm l
  | [], i, d, h => by simp at h
  | x :: xr, 0, d, _ => by simp
  | x :: xr, i + 1, d, h => by
    have ih := getD_cons_eraseIdx_perm xr i d (by simpa using h)
    simpa [List.eraseIdx] using ((List.Perm.swap x (xr.getD i d) (xr.eraseIdx i)).trans (ih.cons x))

theorem shuffle_go_perm {α : Type} :
    ∀ (n : Nat) (xs : List α) (g : RNG), xs.length = n → ((shuffle_go n xs g).1).Perm xs
  | 0, [], _, _ => List.Perm.refl _
  | 0, x :: xr, _, h => by simp at h
  | _ + 1, [], _, _ => List.Perm.refl _
  | n + 1, x :: xr, g, h => by
    have hlt : g.next.1 % (x :: xr).length < (x :: xr).length :=
      Nat.mod_lt _ (by simp)
    have hlen : ((x :: xr).eraseIdx (g.next.1 % (x :: xr).length)).length = n := by
      rw [List.length_eraseIdx]
      simp only [hlt, if_true]
      omega
    have ih := shuffle_go_perm n ((x :: xr).eraseIdx (g.next.1 % (x :: xr).length)) g.next.2 hlen
    simp only [shuffle_go]
    exact (ih.cons _).trans (getD_cons_eraseIdx_perm _ _ _ hlt)

theorem shuffle_perm {α : Type} (g : RNG) (xs : List α) : ((shuffle g xs).1).Perm xs :=
  shuffle_go_perm xs.length xs g rfl

theorem shuffle_length {α : Type} (g : RNG) (xs : List α) :
    (shuffle g xs).1.length = xs.length :=
  (shuffle_perm g xs).length_eq

/-! ## Dictionary lemmas -/

theorem dget_fst : ∀ (cs : CS) (subj : String), (dget cs subj).1 = dlookup cs subj
  | [], _ => rfl
  | (k, v) :: rest, subj => by
    by_cases h : k = subj <;> simp [dget, dlookup, h, dget_fst rest subj]

theorem dget_dlookup : ∀ (cs : CS) (subj k : String), dlookup (dget cs subj).2 k = dlookup cs k
  | [], subj, k => by
    by_cases h : subj = k <;> simp [dget, dlookup, h]
  | (k0, v) :: rest, subj, k => by
    by_cases h : k0 = subj
    · simp [dget, h]
    · by_cases hk : k0 = k
      · subst hk
        simp [dget, dlookup, h]
      · simp [dget, dlookup, h, hk, dget_dlookup rest subj k]

theorem dlookup_cs_add :
    ∀ (cs : CS) (subj sid k : String),
      dlookup (cs_add cs subj sid) k =
        if k = subj then
          (if sid ∈ dlookup cs subj then dlookup cs subj else dlookup cs subj ++ [sid])
        else dlookup cs k
  | [], subj, sid, k => by
    by_cases h : k = subj
    · simp [cs_add, dlookup, h]
    · have h2 : ¬ subj = k := fun hh => h hh.symm
      simp [cs_add, dlookup, h, h2]
  | (k0, v) :: rest, subj, sid, k => by
    by_cases h : k0 = subj
    · subst h
      by_cases hk : k = k0
      · subst hk
        simp [cs_add, dlookup]
      · have h2 : ¬ k0 = k := fun hh => hk hh.symm
        simp [cs_add, dlookup, hk, h2]
    · by_cases hk : k0 = k
      · subst hk
        simp [cs_add, dlookup, h]
      · simp [cs_add, dlookup, h, hk, dlookup_cs_add rest subj sid k]

theorem course_students_go_nodup :
    ∀ (df : List SRow) (cs : CS), (∀ k, (dlookup cs k).Nodup) →
      ∀ k, (dlookup (df.foldl (fun cs r => cs_add cs r.subject r.sid) cs) k).Nodup
  | [], _, h => h
  | r :: rest, cs, h => by
    refine course_students_go_nodup rest _ (fun k => ?_)
    rw [dlookup_cs_add]
    by_cases hk : k = r.subject
    · by_cases hmem : r.sid ∈ dlookup cs r.subject
      · simpa [hk, hmem] using h r.subject
      · simp only [hk, if_true, hmem, if_false]
        simp [List.nodup_append, h r.subject, hmem]
    · simpa [hk] using h k

theorem course_students_nodup (df : List SRow) (k : String) :
    (dlookup (course_students df) k).Nodup :=
  course_students_go_nodup df [] (fun _ => List.nodup_nil) k

/-! ## Evaluating one candidate slot -/

/-- A candidate slot is hard-feasible for a set of enrolled students: the
scan reports neither a clash nor a reached daily limit. -/
def slot_ok (sched : Sched) (enrolled : List String) (c : String × String) : Prop :=
  (scan_students sched c.1 c.2 enrolled).1 = false ∧
  (scan_students sched c.1 c.2 enrolled).2.1 = false

instance (sched : Sched) (enrolled : List String) (c : String × String) :
    Decidable (slot_ok sched enrolled c) := by
  unfold slot_ok
  infer_instance

/-- The accumulated penalty the scan reports for a candidate slot. -/
def slot_penalty (sched : Sched) (enrolled : List String) (c : String × String) : Int :=
  (scan_students sched c.1 c.2 enrolled).2.2

theorem slot_ok_iff :
    ∀ (enrolled : List String) (sched : Sched) (c : String × String),
      slot_ok sched enrolled c ↔
        ∀ st ∈ enrolled, c.2 ∉ sched st c.1 ∧ (sched st c.1).length < 4
  | [], sched, c => by simp [slot_ok, scan_students]
  | st :: rest, sched, c => by
    by_cases h1 : c.2 ∈ sched st c.1
    · simp [slot_ok, scan_students, h1]
    · by_cases h2 : 4 ≤ (sched st c.1).length
      · simp [slot_ok, scan_students, h1, h2]
      · have ih := slot_ok_iff rest sched c
        simp only [slot_ok, scan_students, h1, if_false, h2, if_neg] at ih ⊢
        simp only [List.mem_cons]
        constructor
        · rintro hr st2 (rfl | hst2)
          · exact ⟨h1, by omega⟩
          · exact (ih.mp hr) st2 hst2
        · intro hr
          exact ih.mpr (fun st2 hst2 => hr st2 (Or.inr hst2))

theorem scan_students_penalty :
    ∀ (enrolled : List String) (sched : Sched) (day slot : String),
      (∀ st ∈ enrolled, slot ∉ sched st day ∧ (sched st day).length < 4) →
      (scan_students sched day slot enrolled).2.2 =
        (enrolled.map fun st => contribution (sched st day).length).sum
  | [], _, _, _, _ => by simp [scan_students]
  | st :: rest, sched, day, slot, h => by
    obtain ⟨h1, h2⟩ := h st (by simp)
    have ih := scan_students_penalty rest sched day slot
      (fun st2 hst2 => h st2 (by simp [hst2]))
    simp [scan_students, h1, ih, Nat.not_le.mpr h2]

/-! ## Characterizing the slot selection -/

/-- Structural form of the `best_time`/`best_penalty` selection: the
feasible candidate of minimal penalty, earliest at the minimum. -/
def pick_best_rec (sched : Sched) (enrolled : List String) :
    List (String × String) → Option ((String × String) × Int)
  | [] => none
  | c :: rest =>
    let r := scan_students sched c.1 c.2 enrolled
    let b := pick_best_rec sched enrolled rest
    if r.1 = false ∧ r.2.1 = false then
      match b with
      | none => some (c, r.2.2)
      | some b2 => if b2.2 < r.2.2 then some b2 else some (c, r.2.2)
    else b

/-- Merging an already-held best with the best of the remaining candidates
(ties keep the already-held one, i.e. the earlier candidate). -/
def merge_best (b : (String × String) × Int) :
    Option ((String × String) × Int) → (String × String) × Int
  | none => b
  | some b2 => if b2.2 < b.2 then b2 else b

theorem merge_best_merge (b x : (String × String) × Int)
    (R : Option ((String × String) × Int)) :
    merge_best b (some (merge_best x R)) =
      if x.2 < b.2 then merge_best x R else merge_best b R := by
  cases R with
  | none =>
    simp only [merge_best]
  | some b2 =>
    by_cases h1 : b2.2 < x.2 <;> by_cases h2 : x.2 < b.2 <;>
      simp only [merge_best, h1, h2, if_true, if_false] <;>
      split_ifs <;> first | rfl | omega

theorem pick_best_go_some :
    ∀ (cands : List (String × String)) (sched : Sched) (enrolled : List String)
      (b : (String × String) × Int),
      pick_best_go sched enrolled cands (some b) =
        some (merge_best b (pick_best_rec sched enrolled cands)).1
  | [], _, _, _ => rfl
  | c :: rest, sched, enrolled, b => by
    simp only [pick_best_go, pick_best_rec]
    by_cases hok : (scan_students sched c.1 c.2 enrolled).1 = false ∧
        (scan_students sched c.1 c.2 enrolled).2.1 = false
    · rw [if_pos hok, if_pos hok]
      have hmatch : (match pick_best_rec sched enrolled rest with
          | none => some (c, (scan_students sched c.1 c.2 enrolled).2.2)
          | some b2 => if b2.2 < (scan_students sched c.1 c.2 enrolled).2.2 then some b2
              else some (c, (scan_students sched c.1 c.2 enrolled).2.2)) =
          some (merge_best (c, (scan_students sched c.1 c.2 enrolled).2.2)
            (pick_best_rec sched enrolled rest)) := by
        cases pick_best_rec sched enrolled rest with
        | none => simp [merge_best]
        | some v =>
          simp only [merge_best]
          split_ifs <;> simp_all
      rw [hmatch, merge_best_merge]
      by_cases hlt : (scan_students sched c.1 c.2 enrolled).2.2 < b.2
      · rw [if_pos hlt, if_pos hlt, pick_best_go_some rest]
      · rw [if_neg hlt, if_neg hlt, pick_best_go_some rest]
    · rw [if_neg hok, if_neg hok]
      exact pick_best_go_some rest sched enrolled b

theorem pick_best_eq :
    ∀ (cands : List (String × String)) (sched : Sched) (enrolled : List String),
      pick_best sched enrolled cands =
        (pick_best_rec sched enrolled cands).map Prod.fst
  | [], _, _ => rfl
  | c :: rest, sched, enrolled => by
    simp only [pick_best, pick_best_go, pick_best_rec]
    by_cases hok : (scan_students sched c.1 c.2 enrolled).1 = false ∧
        (scan_students sched c.1 c.2 enrolled).2.1 = false
    · rw [if_pos hok, if_pos hok, pick_best_go_some]
      cases hR : pick_best_rec sched enrolled rest with
      | none => simp [hR, merge_best]
      | some b2 =>
        simp only [hR, merge_best]
        split_ifs <;> simp
    · rw [if_neg hok, if_neg hok]
      exact pick_best_eq rest sched enrolled

theorem pick_best_rec_none_iff (sched : Sched) (enrolled : List String) :
    ∀ (cands : List (String × String)),
      pick_best_rec sched enrolled cands = none ↔
        ∀ c ∈ cands, ¬ slot_ok sched enrolled c
  | [] => by simp [pick_best_rec]
  | c :: rest => by
    have ih := pick_best_rec_none_iff sched enrolled rest
    simp only [pick_best_rec]
    by_cases hok : (scan_students sched c.1 c.2 enrolled).1 = false ∧
        (scan_students sched c.1 c.2 enrolled).2.1 = false
    · rw [if_pos hok]
      have hc : slot_ok sched enrolled c := hok
      cases hR : pick_best_rec sched enrolled rest with
      | none =>
        simp only [hR]
        exact iff_of_false (by simp) (fun hall => hall c (by simp) hc)
      | some b2 =>
        simp only [hR]
        refine iff_of_false ?_ (fun hall => hall c (by simp) hc)
        split_ifs <;> simp
    · rw [if_neg hok, ih]
      constructor
      · intro h c2 hc2
        rcases List.mem_cons.mp hc2 with rfl | hc2
        · exact fun hh => hok hh
        · exact h c2 hc2
      · intro h c2 hc2
        exact h c2 (List.mem_cons_of_mem _ hc2)

theorem pick_best_rec_some (sched : Sched) (enrolled : List String) :
    ∀ (cands : List (String × String)) (c : String × String) (p : Int),
      pick_best_rec sched enrolled cands = some (c, p) →
        p = slot_penalty sched enrolled c ∧ slot_ok sched enrolled c ∧
        ∃ pre post, cands = pre ++ c :: post ∧
          (∀ c2 ∈ pre, slot_ok sched enrolled c2 → p < slot_penalty sched enrolled c2) ∧
          (∀ c2 ∈ cands, slot_ok sched enrolled c2 → p ≤ slot_penalty sched enrolled c2)
  | [], c, p => by simp [pick_best_rec]
  | c0 :: rest, c, p => by
    intro h
    simp only [pick_best_rec] at h
    by_cases hok : (scan_students sched c0.1 c0.2 enrolled).1 = false ∧
        (scan_students sched c0.1 c0.2 enrolled).2.1 = false
    · rw [if_pos hok] at h
      cases hR : pick_best_rec sched enrolled rest with
      | none =>
        simp only [hR, Option.some.injEq, Prod.mk.injEq] at h
        obtain ⟨rfl, rfl⟩ := h
        refine ⟨rfl, hok, [], rest, rfl, by simp, ?_⟩
        intro c2 hc2 hok2
        rcases List.mem_cons.mp hc2 with rfl | hc2
        · exact le_refl _
        · exact absurd hok2 ((pick_best_rec_none_iff sched enrolled rest).mp hR c2 hc2)
      | some b2 =>
        obtain ⟨hp2, hok2, pre2, post2, hsplit, hmin2, hall2⟩ :=
          pick_best_rec_some sched enrolled rest b2.1 b2.2 (by rw [hR])
        simp only [hR] at h
        by_cases hlt : b2.2 < (scan_students sched c0.1 c0.2 enrolled).2.2
        · rw [if_pos hlt] at h
          simp only [Option.some.injEq] at h
          subst h
          refine ⟨hp2, hok2, c0 :: pre2, post2, by simp [hsplit], ?_, ?_⟩
          · intro c2 hc2 hok3
            rcases List.mem_cons.mp hc2 with rfl | hc2
            · exact hlt
            · exact hmin2 c2 hc2 hok3
          · intro c2 hc2 hok3
            rcases List.mem_cons.mp hc2 with rfl | hc2
            · exact le_of_lt hlt
            · exact hall2 c2 hc2 hok3
        · rw [if_neg hlt] at h
          simp only [Option.some.injEq, Prod.mk.injEq] at h
          obtain ⟨rfl, rfl⟩ := h
          refine ⟨rfl, hok, [], rest, rfl, by simp, ?_⟩
          intro c2 hc2 hok3
          rcases List.mem_cons.mp hc2 with rfl | hc2
          · exact le_refl _
          · exact le_trans (by omega) (hall2 c2 hc2 hok3)
    · rw [if_neg hok] at h
      obtain ⟨hp2, hok2, pre2, post2, hsplit, hmin2, hall2⟩ :=
        pick_best_rec_some sched enrolled rest c p h
      refine ⟨hp2, hok2, c0 :: pre2, post2, by simp [hsplit], ?_, ?_⟩
      · intro c2 hc2 hok3
        rcases List.mem_cons.mp hc2 with rfl | hc2
        · exact absurd hok3 (fun hh => hok hh)
        · exact hmin2 c2 hc2 hok3
      · intro c2 hc2 hok3
        rcases List.mem_cons.mp hc2 with rfl | hc2
        · exact absurd hok3 (fun hh => hok hh)
        · exact hall2 c2 hc2 hok3

theorem pick_best_none_iff (sched : Sched) (enrolled : List String)
    (cands : List (String × String)) :
    pick_best sched enrolled cands = none ↔ ∀ c ∈ cands, ¬ slot_ok sched enrolled c := by
  rw [pick_best_eq, Option.map_eq_none', pick_best_rec_none_iff]

theorem pick_best_some_ok (sched : Sched) (enrolled : List String)
    (cands : List (String × String)) (ds : String × String)
    (h : pick_best sched enrolled cands = some ds) : slot_ok sched enrolled ds := by
  rw [pick_best_eq] at h
  cases hR : pick_best_rec sched enrolled cands with
  | none => rw [hR] at h; cases h
  | some b2 =>
    rw [hR] at h
    obtain rfl : b2.1 = ds := by cases h; rfl
    exact (pick_best_rec_some sched enrolled cands b2.1 b2.2 (by rw [hR])).2.1

/-! ## The schedule state determined by a timetable -/

/-- The slots a student holds on a day, read off the accumulated timetable:
the `student_schedule` state always equals this view. -/
def sched_of (cs : CS) (tt : List Entry) : Sched := fun sid day =>
  (tt.filter fun e => e.day == day && (dlookup cs e.subject).contains sid).map
    Entry.time_slot

theorem sched_of_nil (cs : CS) : sched_of cs [] = empty_sched := rfl

theorem sched_of_append (cs : CS) (tt : List Entry) (subj f d s rm sid day : String) :
    sched_of cs (tt ++ [⟨subj, f, d, s, rm⟩]) sid day =
      sched_of cs tt sid day ++
        (if d = day ∧ sid ∈ dlookup cs subj then [s] else []) := by
  simp only [sched_of, List.filter_append, List.map_append]
  congr 1
  by_cases h1 : d = day <;> by_cases h2 : sid ∈ dlookup cs subj
  · simp [List.filter, h1, h2]
  · simp [List.filter, h1, h2]
  · have hb : (d == day) = false := by simp [h1]
    simp [List.filter, hb, h1, h2]
  · have hb : (d == day) = false := by simp [h1]
    simp [List.filter, hb, h1, h2]

theorem sched_of_ext {cs1 cs2 : CS} (h : ∀ k, dlookup cs1 k = dlookup cs2 k)
    (tt : List Entry) : sched_of cs1 tt = sched_of cs2 tt := by
  funext sid day
  simp only [sched_of]
  rw [List.filter_congr (fun e _ => by rw [h e.subject])]

theorem update_schedule_apply :
    ∀ (enrolled : List String) (sched : Sched) (d s sid day : String), enrolled.Nodup →
      update_schedule sched enrolled d s sid day =
        if sid ∈ enrolled ∧ day = d then sched sid day ++ [s] else sched sid day
  | [], sched, d, s, sid, day, _ => by simp [update_schedule]
  | st :: rest, sched, d, s, sid, day, hnd => by
    have hst : st ∉ rest := (List.nodup_cons.mp hnd).1
    have ih := update_schedule_apply rest
      (fun sid2 day2 => if sid2 = st ∧ day2 = d then sched sid2 day2 ++ [s] else sched sid2 day2)
      d s sid day (List.nodup_cons.mp hnd).2
    simp only [update_schedule, List.foldl_cons] at ih ⊢
    rw [ih]
    by_cases h1 : sid ∈ rest
    · have hne : ¬ sid = st := fun hh => hst (hh ▸ h1)
      by_cases h2 : day = d <;> simp [h1, h2, hne]
    · by_cases h3 : sid = st
      · subst h3
        by_cases h2 : day = d <;> simp [h1, h2]
      · by_cases h2 : day = d <;> simp [h1, h2, h3]

theorem update_sched_of (cs : CS) (tt : List Entry) (subj f d s rm : String)
    (hnd : (dlookup cs subj).Nodup) :
    update_schedule (sched_of cs tt) (dlookup cs subj) d s =
      sched_of cs (tt ++ [⟨subj, f, d, s, rm⟩]) := by
  funext sid day
  rw [update_schedule_apply _ _ _ _ _ _ hnd, sched_of_append]
  by_cases h1 : sid ∈ dlookup cs subj <;> by_cases h2 : day = d
  · simp [h1, h2]
  · have h2' : ¬ d = day := fun hh => h2 hh.symm
    simp [h1, h2, h2']
  · simp [h1, h2]
  · have h2' : ¬ d = day := fun hh => h2 hh.symm
    simp [h1, h2, h2']

/-! ## The two hard-constraint invariants -/

/-- Clash-freedom as a state invariant: no student holds a repeated slot on
any day. -/
def clash_free (cs : CS) (tt : List Entry) : Prop :=
  ∀ sid day, (sched_of cs tt sid day).Nodup

/-- The daily cap as a state invariant: no student holds more than four
slots on any day. -/
def daily_cap (cs : CS) (tt : List Entry) : Prop :=
  ∀ sid day, (sched_of cs tt sid day).length ≤ 4

theorem clash_free_nil (cs : CS) : clash_free cs [] := fun _ _ => List.nodup_nil

theorem daily_cap_nil (cs : CS) : daily_cap cs [] := fun _ _ => by
  simp [sched_of]

theorem clash_free_step {cs : CS} {tt : List Entry} {subj f d s rm : String}
    (hcf : clash_free cs tt)
    (hok : ∀ st ∈ dlookup cs subj, s ∉ sched_of cs tt st d) :
    clash_free cs (tt ++ [⟨subj, f, d, s, rm⟩]) := by
  intro sid day
  rw [sched_of_append]
  by_cases h : d = day ∧ sid ∈ dlookup cs subj
  · obtain ⟨rfl, hmem⟩ := h
    rw [if_pos ⟨rfl, hmem⟩]
    simp [List.nodup_append, hcf sid d, hok sid hmem]
  · rw [if_neg h, List.append_nil]
    exact hcf sid day

theorem daily_cap_step {cs : CS} {tt : List Entry} {subj f d s rm : String}
    (hdc : daily_cap cs tt)
    (hlen : ∀ st ∈ dlookup cs subj, (sched_of cs tt st d).length < 4) :
    daily_cap cs (tt ++ [⟨subj, f, d, s, rm⟩]) := by
  intro sid day
  rw [sched_of_append]
  by_cases h : d = day ∧ sid ∈ dlookup cs subj
  · obtain ⟨rfl, hmem⟩ := h
    rw [if_pos ⟨rfl, hmem⟩]
    have := hlen sid hmem
    simp only [List.length_append, List.length_cons, List.length_nil]
    omega
  · rw [if_neg h, List.append_nil]
    exact hdc sid day

theorem clash_free_ext {cs1 cs2 : CS} (h : ∀ k, dlookup cs1 k = dlookup cs2 k)
    (tt : List Entry) : clash_free cs1 tt ↔ clash_free cs2 tt := by
  unfold clash_free
  rw [sched_of_ext h]

theorem daily_cap_ext {cs1 cs2 : CS} (h : ∀ k, dlookup cs1 k = dlookup cs2 k)
    (tt : List Entry) : daily_cap cs1 tt ↔ daily_cap cs2 tt := by
  unfold daily_cap
  rw [sched_of_ext h]

/-! ## The main invariant of one attempt -/

theorem attempt_go_spec (ci : CI) :
    ∀ (subjects : List String) (cs : CS) (tt : List Entry) (g : RNG),
      (∀ k, (dlookup cs k).Nodup) →
      ∀ ok cs' tt' g',
        attempt_go ci subjects cs (sched_of cs tt) tt g = (ok, cs', tt', g') →
        (∀ k, dlookup cs' k = dlookup cs k) ∧
        ∃ placed, tt' = tt ++ placed ∧
          placed.map Entry.subject = subjects.take placed.length ∧
          placed.length ≤ subjects.length ∧
          (ok = true ↔ placed.length = subjects.length) ∧
          (ok = false →
            ∃ gf, pick_best (sched_of cs tt') (dlookup cs (subjects.getD placed.length ""))
              ((shuffle gf available_times).1) = none) ∧
          (clash_free cs tt → clash_free cs tt') ∧
          (daily_cap cs tt → daily_cap cs tt')
  | [], cs, tt, g, hcs, ok, cs', tt', g', h => by
    simp only [attempt_go, Prod.mk.injEq] at h
    obtain ⟨rfl, rfl, rfl, rfl⟩ := h
    refine ⟨fun k => rfl, [], by simp, rfl, Nat.le_refl _, by simp, by simp, id, id⟩
  | subj :: rest, cs, tt, g, hcs, ok, cs', tt', g', h => by
    simp only [attempt_go, dget_fst] at h
    cases hp : pick_best (sched_of cs tt) (dlookup cs subj) (shuffle g available_times).1 with
    | none =>
      simp only [hp, Prod.mk.injEq] at h
      obtain ⟨rfl, rfl, rfl, rfl⟩ := h
      refine ⟨dget_dlookup cs subj, [], by simp, rfl, by simp, by simp, ?_, id, id⟩
      intro _
      exact ⟨g, by simpa using hp⟩
    | some ds =>
      simp only [hp] at h
      have hext : ∀ k, dlookup (dget cs subj).2 k = dlookup cs k := dget_dlookup cs subj
      have hnd : (dlookup cs subj).Nodup := hcs subj
      have hokslot := pick_best_some_ok _ _ _ _ hp
      have hfeas := (slot_ok_iff (dlookup cs subj) (sched_of cs tt) ds).mp hokslot
      set entry : Entry :=
        ⟨subj, info_get ci subj, ds.1, ds.2,
          "CR-" ++ toString (randint (shuffle g available_times).2 1 8).1⟩ with hentry
      have hupd : update_schedule (sched_of cs tt) (dlookup cs subj) ds.1 ds.2 =
          sched_of cs (tt ++ [entry]) :=
        update_sched_of cs tt subj (info_get ci subj) ds.1 ds.2 _ hnd
      have hsched1 : sched_of cs (tt ++ [entry]) = sched_of (dget cs subj).2 (tt ++ [entry]) :=
        sched_of_ext (fun k => (hext k).symm) _
      rw [hupd, hsched1] at h
      have hcs1 : ∀ k, (dlookup (dget cs subj).2 k).Nodup := fun k => by
        rw [hext k]; exact hcs k
      obtain ⟨hpres, placed', htt', hmap', hlen', hiff', hfail', hcf', hdc'⟩ :=
        attempt_go_spec ci rest (dget cs subj).2 (tt ++ [entry]) _ hcs1 ok cs' tt' g' h
      have hstep_cf : clash_free cs tt → clash_free cs (tt ++ [entry]) := fun hcf =>
        clash_free_step hcf (fun st hst => (hfeas st hst).1)
      have hstep_dc : daily_cap cs tt → daily_cap cs (tt ++ [entry]) := fun hdc =>
        daily_cap_step hdc (fun st hst => (hfeas st hst).2)
      refine ⟨fun k => (hpres k).trans (hext k), entry :: placed', ?_, ?_, ?_, ?_, ?_, ?_, ?_⟩
      · rw [htt']
        simp
      · simp only [List.map_cons, List.length_cons, List.take_succ_cons]
        rw [hmap']
      · simpa using Nat.succ_le_succ hlen'
      · rw [hiff']
        simp only [List.length_cons, List.length_cons]
        exact ⟨fun hh => by omega, fun hh => by omega⟩
      · intro hfalse
        obtain ⟨gf, hgf⟩ := hfail' hfalse
        refine ⟨gf, ?_⟩
        rw [sched_of_ext hext tt', hext _] at hgf
        simpa using hgf
      · intro hcf
        exact (clash_free_ext hext tt').mp (hcf' ((clash_free_ext hext _).mpr (hstep_cf hcf)))
      · intro hdc
        exact (daily_cap_ext hext tt').mp (hdc' ((daily_cap_ext hext _).mpr (hstep_dc hdc)))

/-! ## The restart loop -/

theorem solve_go_succ (ci : CI) (n : Nat) (cs : CS) (subjects : List String) (g : RNG) :
    solve_go ci (n + 1) cs subjects g =
      (if (attempt_go ci (shuffle g subjects).1 cs empty_sched [] (shuffle g subjects).2).1 then
        ((attempt_go ci (shuffle g subjects).1 cs empty_sched [] (shuffle g subjects).2).2.2.1,
         (attempt_go ci (shuffle g subjects).1 cs empty_sched [] (shuffle g subjects).2).2.1)
      else
        match n with
        | 0 =>
          ((attempt_go ci (shuffle g subjects).1 cs empty_sched [] (shuffle g subjects).2).2.2.1,
           (attempt_go ci (shuffle g subjects).1 cs empty_sched [] (shuffle g subjects).2).2.1)
        | m + 1 =>
          solve_go ci (m + 1)
            (attempt_go ci (shuffle g subjects).1 cs empty_sched [] (shuffle g subjects).2).2.1
            (shuffle g subjects).1
            (attempt_go ci (shuffle g subjects).1 cs empty_sched [] (shuffle g subjects).2).2.2.2) := by
  cases n with
  | zero => simp only [solve_go]
  | succ m => simp only [solve_go]

/-- Packaging `attempt_go_spec` for an attempt started from a fresh
schedule, as the restart loop does. -/
theorem attempt_fresh_spec (ci : CI) (subjects : List String) (cs : CS) (g : RNG)
    (hcs : ∀ k, (dlookup cs k).Nodup) :
    (∀ k, dlookup (attempt_go ci subjects cs empty_sched [] g).2.1 k = dlookup cs k) ∧
    ((attempt_go ci subjects cs empty_sched [] g).2.2.1).map Entry.subject =
      subjects.take (attempt_go ci subjects cs empty_sched [] g).2.2.1.length ∧
    (attempt_go ci subjects cs empty_sched [] g).2.2.1.length ≤ subjects.length ∧
    ((attempt_go ci subjects cs empty_sched [] g).1 = true ↔
      (attempt_go ci subjects cs empty_sched [] g).2.2.1.length = subjects.length) ∧
    ((attempt_go ci subjects cs empty_sched [] g).1 = false →
      ∃ gf, pick_best (sched_of cs (attempt_go ci subjects cs empty_sched [] g).2.2.1)
        (dlookup cs (subjects.getD (attempt_go ci subjects cs empty_sched [] g).2.2.1.length ""))
        ((shuffle gf available_times).1) = none) ∧
    clash_free cs (attempt_go ci subjects cs empty_sched [] g).2.2.1 ∧
    daily_cap cs (attempt_go ci subjects cs empty_sched [] g).2.2.1 := by
  obtain ⟨hpres, placed, hplaced, hmap, hlen, hiff, hfail, hcf, hdc⟩ :=
    attempt_go_spec ci subjects cs [] g hcs
      (attempt_go ci subjects cs empty_sched [] g).1
      (attempt_go ci subjects cs empty_sched [] g).2.1
      (attempt_go ci subjects cs empty_sched [] g).2.2.1
      (attempt_go ci subjects cs empty_sched [] g).2.2.2
      (by rw [sched_of_nil])
  rw [List.nil_append] at hplaced
  subst hplaced
  exact ⟨hpres, hmap, hlen, hiff, hfail, hcf (clash_free_nil cs), hdc (daily_cap_nil cs)⟩

theorem solve_go_spec (ci : CI) :
    ∀ (fuel : Nat) (cs : CS) (subjects : List String) (g : RNG),
      (∀ k, (dlookup cs k).Nodup) →
      (∀ k, dlookup (solve_go ci fuel cs subjects g).2 k = dlookup cs k) ∧
      ∃ subjects' : List String, subjects'.Perm subjects ∧
        ((solve_go ci fuel cs subjects g).1).map Entry.subject =
          subjects'.take (solve_go ci fuel cs subjects g).1.length
  | 0, cs, subjects, g, hcs => by
    refine ⟨fun _ => rfl, subjects, List.Perm.refl _, ?_⟩
    simp [solve_go]
  | n + 1, cs, subjects, g, hcs => by
    obtain ⟨hpres, hmap, hlen, hiff, hfail, hcf, hdc⟩ :=
      attempt_fresh_spec ci (shuffle g subjects).1 cs (shuffle g subjects).2 hcs
    rw [solve_go_succ]
    by_cases hok : (attempt_go ci (shuffle g subjects).1 cs empty_sched []
        (shuffle g subjects).2).1 = true
    · rw [if_pos hok]
      exact ⟨hpres, (shuffle g subjects).1, shuffle_perm g subjects, hmap⟩
    · rw [if_neg hok]
      cases n with
      | zero =>
        exact ⟨hpres, (shuffle g subjects).1, shuffle_perm g subjects, hmap⟩
      | succ m =>
        have hcs1 : ∀ k, (dlookup (attempt_go ci (shuffle g subjects).1 cs empty_sched []
            (shuffle g subjects).2).2.1 k).Nodup := fun k => by
          rw [hpres k]; exact hcs k
        obtain ⟨hpres2, subjects'', hperm'', hmap''⟩ :=
          solve_go_spec ci (m + 1)
            (attempt_go ci (shuffle g subjects).1 cs empty_sched [] (shuffle g subjects).2).2.1
            (shuffle g subjects).1
            (attempt_go ci (shuffle g subjects).1 cs empty_sched [] (shuffle g subjects).2).2.2.2
            hcs1
        exact ⟨fun k => (hpres2 k).trans (hpres k),
          subjects'', hperm''.trans (shuffle_perm g subjects), hmap''⟩

/-- Reference description of the restart loop: the sequence of
`(success, timetable)` outcomes of the attempts actually performed (stopping
after the first success or when the budget runs out). -/
def spec_attempts (ci : CI) : Nat → CS → List String → RNG → List (Bool × List Entry)
  | 0, _, _, _ => []
  | n + 1, cs, subjects, g =>
    ((attempt_go ci (shuffle g subjects).1 cs empty_sched [] (shuffle g subjects).2).1,
     (attempt_go ci (shuffle g subjects).1 cs empty_sched [] (shuffle g subjects).2).2.2.1) ::
    (if (attempt_go ci (shuffle g subjects).1 cs empty_sched [] (shuffle g subjects).2).1 then []
     else spec_attempts ci n
       (attempt_go ci (shuffle g subjects).1 cs empty_sched [] (shuffle g subjects).2).2.1
       (shuffle g subjects).1
       (attempt_go ci (shuffle g subjects).1 cs empty_sched [] (shuffle g subjects).2).2.2.2)

theorem getLastD_ne {α : Type} (l : List α) (h : l ≠ []) (d1 d2 : α) :
    l.getLastD d1 = l.getLastD d2 := by
  cases l with
  | nil => exact absurd rfl h
  | cons a as => rw [List.getLastD_cons, List.getLastD_cons]

theorem solve_go_trace (ci : CI) :
    ∀ (fuel : Nat) (cs : CS) (subjects : List String) (g : RNG), 0 < fuel →
      spec_attempts ci fuel cs subjects g ≠ [] ∧
      (spec_attempts ci fuel cs subjects g).length ≤ fuel ∧
      (solve_go ci fuel cs subjects g).1 =
        ((spec_attempts ci fuel cs subjects g).getLastD (true, [])).2 ∧
      (∀ i, i + 1 < (spec_attempts ci fuel cs subjects g).length →
        ((spec_attempts ci fuel cs subjects g).getD i (true, [])).1 = false) ∧
      (((spec_attempts ci fuel cs subjects g).getLastD (true, [])).1 = true ∨
        (spec_attempts ci fuel cs subjects g).length = fuel)
  | 0, _, _, _, h => absurd h (by omega)
  | n + 1, cs, subjects, g, _ => by
    rw [solve_go_succ]
    simp only [spec_attempts]
    by_cases hok : (attempt_go ci (shuffle g subjects).1 cs empty_sched []
        (shuffle g subjects).2).1 = true
    · rw [if_pos hok, if_pos hok]
      refine ⟨by simp, by simp, by simp [List.getLastD], ?_, ?_⟩
      · intro i hi
        simp at hi
      · left
        simpa [List.getLastD] using hok
    · rw [if_neg hok, if_neg hok]
      have hfalse : (attempt_go ci (shuffle g subjects).1 cs empty_sched []
          (shuffle g subjects).2).1 = false := by
        cases hb : (attempt_go ci (shuffle g subjects).1 cs empty_sched []
            (shuffle g subjects).2).1
        · rfl
        · exact absurd hb hok
      cases n with
      | zero =>
        simp only [spec_attempts]
        refine ⟨by simp, by simp, by simp [List.getLastD], ?_, Or.inr (by simp)⟩
        intro i hi
        simp at hi
      | succ m =>
        obtain ⟨hne, hlen, hsolve, hall, hlast⟩ :=
          solve_go_trace ci (m + 1)
            (attempt_go ci (shuffle g subjects).1 cs empty_sched [] (shuffle g subjects).2).2.1
            (shuffle g subjects).1
            (attempt_go ci (shuffle g subjects).1 cs empty_sched [] (shuffle g subjects).2).2.2.2
            (by omega)
        refine ⟨by simp, ?_, ?_, ?_, ?_⟩
        · simp only [List.length_cons]
          omega
        · rw [hsolve, List.getLastD_cons, getLastD_ne _ hne]
        · intro i hi
          cases i with
          | zero => simpa [List.getD_cons_zero] using hfalse
          | succ j =>
            rw [List.getD_cons_succ]
            exact hall j (by simpa using hi)
        · rcases hlast with h | h
          · left
            rw [List.getLastD_cons, getLastD_ne _ hne _ (true, [])]
            exact h
          · right
            simp only [List.length_cons]
            omega

theorem spec_attempts_mem (ci : CI) :
    ∀ (fuel : Nat) (cs : CS) (subjects : List String) (g : RNG),
      (∀ k, (dlookup cs k).Nodup) →
      ∀ ok tt, (ok, tt) ∈ spec_attempts ci fuel cs subjects g →
        ∃ subjects' : List String, subjects'.Perm subjects ∧
          tt.map Entry.subject = subjects'.take tt.length ∧
          tt.length ≤ subjects'.length ∧
          (ok = true ↔ tt.length = subjects'.length) ∧
          (ok = false → ∃ gf,
            pick_best (sched_of cs tt) (dlookup cs (subjects'.getD tt.length ""))
              ((shuffle gf available_times).1) = none)
  | 0, cs, subjects, g, hcs => by
    intro ok tt hmem
    simp [spec_attempts] at hmem
  | n + 1, cs, subjects, g, hcs => by
    intro ok tt hmem
    obtain ⟨hpres, hmap, hlen, hiff, hfail, hcf, hdc⟩ :=
      attempt_fresh_spec ci (shuffle g subjects).1 cs (shuffle g subjects).2 hcs
    simp only [spec_attempts] at hmem
    rcases List.mem_cons.mp hmem with heq | htail
    · simp only [Prod.mk.injEq] at heq
      obtain ⟨rfl, rfl⟩ := heq
      exact ⟨(shuffle g subjects).1, shuffle_perm g subjects, hmap, hlen, hiff, hfail⟩
    · by_cases hok : (attempt_go ci (shuffle g subjects).1 cs empty_sched []
          (shuffle g subjects).2).1 = true
      · rw [if_pos hok] at htail
        cases htail
      · rw [if_neg hok] at htail
        have hcs1 : ∀ k, (dlookup (attempt_go ci (shuffle g subjects).1 cs empty_sched []
            (shuffle g subjects).2).2.1 k).Nodup := fun k => by
          rw [hpres k]
          exact hcs k
        obtain ⟨s2, hperm2, hmap2, hlen2, hiff2, hfail2⟩ :=
          spec_attempts_mem ci n
            (attempt_go ci (shuffle g subjects).1 cs empty_sched [] (shuffle g subjects).2).2.1
            (shuffle g subjects).1
            (attempt_go ci (shuffle g subjects).1 cs empty_sched [] (shuffle g subjects).2).2.2.2
            hcs1 ok tt htail
        refine ⟨s2, hperm2.trans (shuffle_perm g subjects), hmap2, hlen2, hiff2, ?_⟩
        intro hfalse
        obtain ⟨gf, hgf⟩ := hfail2 hfalse
        refine ⟨gf, ?_⟩
        rw [sched_of_ext hpres tt, hpres _] at hgf
        exact hgf

/-! ## Constant streams and solver-level determinism -/

/-- The all-zeros draw stream: one concrete fixed seed. -/
def czero : Nat → Nat := fun _ => 0

theorem czero_equiv (p q : Nat) : RNG.equiv ⟨czero, p⟩ ⟨czero, q⟩ := fun _ => rfl

theorem shuffle_go_czero {α : Type} :
    ∀ (n : Nat) (xs : List α) (p : Nat), n = xs.length →
      shuffle_go n xs ⟨czero, p⟩ = (xs, ⟨czero, p + n⟩)
  | 0, xs, p, h => by
    have : xs = [] := List.length_eq_zero.mp h.symm
    subst this
    simp [shuffle_go]
  | n + 1, [], p, h => by simp at h
  | n + 1, x :: xr, p, h => by
    have hlen : n = xr.length := by simpa using h
    have ih := shuffle_go_czero n xr (p + 1) hlen
    simp only [shuffle_go, RNG.next, czero, Nat.zero_mod, List.getD_cons_zero,
      List.eraseIdx_cons_zero, ih]
    have : p + 1 + n = p + (n + 1) := by omega
    rw [this]

theorem shuffle_czero {α : Type} (xs : List α) (p : Nat) :
    shuffle ⟨czero, p⟩ xs = (xs, ⟨czero, p + xs.length⟩) :=
  shuffle_go_czero xs.length xs p rfl

theorem solve_go_equiv (ci : CI) :
    ∀ (fuel : Nat) (cs : CS) (subjects : List String) {g g' : RNG}, g.equiv g' →
      solve_go ci fuel cs subjects g = solve_go ci fuel cs subjects g'
  | 0, _, _, _, _, _ => rfl
  | n + 1, cs, subjects, g, g', h => by
    rw [solve_go_succ, solve_go_succ]
    obtain ⟨hsh, hg⟩ := shuffle_equiv subjects h
    rw [hsh]
    obtain ⟨h1, h2, h3, h4⟩ :=
      attempt_go_equiv ci (shuffle g' subjects).1 cs empty_sched [] hg
    rw [h1, h2, h3]
    cases n with
    | zero => rfl
    | succ m =>
      by_cases hok : (attempt_go ci (shuffle g' subjects).1 cs empty_sched []
          (shuffle g' subjects).2).1 = true
      · rw [if_pos hok, if_pos hok]
      · rw [if_neg hok, if_neg hok]
        exact solve_go_equiv ci (m + 1) _ _ h4

/-- Determinism of the whole solver in the generator: the output depends on
the generator only through the stream of draws it will emit from its current
position (the semantics of a seed). -/
theorem generate_timetable_equiv (df : List SRow) (ci : CI) {g g' : RNG}
    (h : g.equiv g') :
    generate_timetable df ci g = generate_timetable df ci g' := by
  unfold generate_timetable
  rw [solve_go_equiv ci 100 (course_students df) (ci.map Prod.fst) h]

/-! ## A complete run and an incomplete run with identical outputs -/

theorem shuffle_czero_fst {α : Type} (xs : List α) (p : Nat) :
    (shuffle ⟨czero, p⟩ xs).1 = xs := by
  rw [shuffle_czero]

theorem shuffle_czero_snd {α : Type} (xs : List α) (p : Nat) :
    (shuffle ⟨czero, p⟩ xs).2 = ⟨czero, p + xs.length⟩ := by
  rw [shuffle_czero]

theorem rng_eta_czero (Y : RNG) (h : Y.stream = czero) : Y = ⟨czero, Y.pos⟩ := by
  cases Y
  simp only at h
  rw [h]

/-- A fixed generator state: the all-zeros stream at position 0. -/
def g0 : RNG := ⟨czero, 0⟩

/-- Twenty-one distinct course names. -/
def subjects21 : List String :=
  ["A", "B", "C", "D", "E", "F", "G", "H", "I", "J",
   "K", "L", "M", "N", "O", "P", "Q", "R", "T", "V", "W"]

/-- One student `S` enrolled in all twenty-one courses: more courses than
the 20-slot week can host for one student, so every attempt fails. -/
def df21 : List SRow := subjects21.map fun n => ⟨"S", n⟩

def ci21 : CI := subjects21.map fun n => (n, "F")

def subjects20 : List String := subjects21.take 20

/-- The same student enrolled in only the first twenty courses: feasible. -/
def df20 : List SRow := subjects20.map fun n => ⟨"S", n⟩

def ci20 : CI := subjects20.map fun n => (n, "F")

set_option maxRecDepth 100000 in
set_option maxHeartbeats 4000000 in
theorem attempt21_failed :
    (attempt_go ci21 subjects21 (course_students df21) empty_sched [] g0).1 = false := by
  decide

set_option maxRecDepth 100000 in
set_option maxHeartbeats 4000000 in
theorem attempt21_cs :
    (attempt_go ci21 subjects21 (course_students df21) empty_sched [] g0).2.1 =
      course_students df21 := by
  decide

/-- Under the all-zeros stream every attempt of the infeasible 21-course
instance is the same failed attempt, so the restart loop returns that
attempt's partial timetable for any budget. -/
theorem solve21 : ∀ (m p : Nat),
    solve_go ci21 (m + 1) (course_students df21) subjects21 ⟨czero, p⟩ =
      ((attempt_go ci21 subjects21 (course_students df21) empty_sched [] g0).2.2.1,
       (attempt_go ci21 subjects21 (course_students df21) empty_sched [] g0).2.1)
  | 0, p => by
    rw [solve_go_succ, shuffle_czero_fst, shuffle_czero_snd]
    obtain ⟨h1, h2, h3, h4⟩ :=
      attempt_go_equiv ci21 subjects21 (course_students df21) empty_sched []
        (show RNG.equiv ⟨czero, p + subjects21.length⟩ g0 from czero_equiv _ 0)
    rw [h1, attempt21_failed, if_neg Bool.false_ne_true, h2, h3]
  | m + 1, p => by
    rw [solve_go_succ, shuffle_czero_fst, shuffle_czero_snd]
    obtain ⟨h1, h2, h3, h4⟩ :=
      attempt_go_equiv ci21 subjects21 (course_students df21) empty_sched []
        (show RNG.equiv ⟨czero, p + subjects21.length⟩ g0 from czero_equiv _ 0)
    rw [h1, attempt21_failed, if_neg Bool.false_ne_true]
    show solve_go ci21 (m + 1)
        (attempt_go ci21 subjects21 (course_students df21) empty_sched []
          (⟨czero, p + subjects21.length⟩ : RNG)).2.1
        subjects21
        (attempt_go ci21 subjects21 (course_students df21) empty_sched []
          (⟨czero, p + subjects21.length⟩ : RNG)).2.2.2 =
      ((attempt_go ci21 subjects21 (course_students df21) empty_sched [] g0).2.2.1,
       (attempt_go ci21 subjects21 (course_students df21) empty_sched [] g0).2.1)
    have h5 : (attempt_go ci21 subjects21 (course_students df21) empty_sched []
        (⟨czero, p + subjects21.length⟩ : RNG)).2.2.2.stream = czero :=
      attempt_go_stream ci21 subjects21 (course_students df21) empty_sched []
        ⟨czero, p + subjects21.length⟩
    rw [h2, attempt21_cs, rng_eta_czero _ h5, solve21 m _, attempt21_cs]

set_option maxRecDepth 100000 in
set_option maxHeartbeats 4000000 in
theorem attempt20_ok :
    (attempt_go ci20 subjects20 (course_students df20) empty_sched []
      (⟨czero, 0 + subjects20.length⟩ : RNG)).1 = true := by
  decide

theorem generate_timetable_def (df : List SRow) (ci : CI) (g : RNG) :
    generate_timetable df ci g =
      (solve_go ci 100 (course_students df) (ci.map Prod.fst) g).1 := rfl

set_option maxRecDepth 100000 in
theorem run21 : generate_timetable df21 ci21 g0 =
    (attempt_go ci21 subjects21 (course_students df21) empty_sched [] g0).2.2.1 := by
  rw [generate_timetable_def,
      show ci21.map Prod.fst = subjects21 from rfl,
      show (100 : Nat) = 99 + 1 from rfl,
      show (g0 : RNG) = ⟨czero, 0⟩ from rfl, solve21 99 0]
  rfl

theorem run20 : generate_timetable df20 ci20 g0 =
    (attempt_go ci20 subjects20 (course_students df20) empty_sched []
      (⟨czero, 0 + subjects20.length⟩ : RNG)).2.2.1 := by
  rw [generate_timetable_def,
      show ci20.map Prod.fst = subjects20 from rfl,
      show (100 : Nat) = 99 + 1 from rfl, solve_go_succ,
      show (g0 : RNG) = ⟨czero, 0⟩ from rfl, shuffle_czero_fst, shuffle_czero_snd,
      if_pos attempt20_ok]

/-- Every course of the catalog appears in the produced timetable. -/
def covers (ci : CI) (tt : List Entry) : Prop :=
  ∀ subj ∈ ci.map Prod.fst, subj ∈ tt.map Entry.subject

instance (ci : CI) (tt : List Entry) : Decidable (covers ci tt) := by
  unfold covers
  infer_instance

set_option maxRecDepth 100000 in
set_option maxHeartbeats 8000000 in
theorem run20_run21_eq :
    generate_timetable df20 ci20 g0 = generate_timetable df21 ci21 g0 := by
  rw [run20, run21]
  decide

set_option maxRecDepth 100000 in
set_option maxHeartbeats 4000000 in
theorem covers20 : covers ci20 (generate_timetable df20 ci20 g0) := by
  rw [run20]
  decide

set_option maxRecDepth 100000 in
set_option maxHeartbeats 4000000 in
theorem not_covers21 : ¬ covers ci21 (generate_timetable df21 ci21 g0) := by
  rw [run21]
  decide

/-! ## Counting views of the invariants -/

theorem count_sched_of (cs : CS) (tt : List Entry) (sid day slot : String) :
    List.count slot (sched_of cs tt sid day) =
      tt.countP (fun e => e.day == day && e.time_slot == slot &&
        (dlookup cs e.subject).contains sid) := by
  simp only [sched_of]
  rw [List.count_eq_countP, List.countP_map, List.countP_filter]
  refine List.countP_congr ?_
  intro e _
  cases hd : e.day == day <;> cases hts : e.time_slot == slot <;>
    cases hc : (dlookup cs e.subject).contains sid <;>
    simp [hd, hts, hc, Function.comp]

theorem length_sched_of (cs : CS) (tt : List Entry) (sid day : String) :
    (sched_of cs tt sid day).length =
      tt.countP (fun e => e.day == day && (dlookup cs e.subject).contains sid) := by
  simp only [sched_of]
  rw [List.length_map, ← List.countP_eq_length_filter]

/-! ## The claims -/

/-- **C1**: for every assignment produced by a fully successful attempt of
the solver (every attempt starts, as in `generate_timetable`, from a fresh
`student_schedule` and the `course_students` index built from the student
frame), for every student and every (day, slot) pair, at most one course
enrolling that student is assigned to that slot. -/
theorem claim1_clash_free_of_successful_attempt
    (df : List SRow) (ci : CI) (subjects : List String) (g : RNG)
    (h : (attempt_go ci subjects (course_students df) empty_sched [] g).1 = true) :
    ∀ sid day slot,
      ((attempt_go ci subjects (course_students df) empty_sched [] g).2.2.1).countP
        (fun e => e.day == day && e.time_slot == slot &&
          (dlookup (course_students df) e.subject).contains sid) ≤ 1 := by
  intro sid day slot
  obtain ⟨hpres, hmap, hlen, hiff, hfail, hcf, hdc⟩ :=
    attempt_fresh_spec ci subjects (course_students df) g (course_students_nodup df)
  have h2 := List.nodup_iff_count_le_one.mp (hcf sid day) slot
  rwa [count_sched_of] at h2

/-- **C2**: for every assignment produced by a fully successful attempt of
the solver, every student has at most 4 classes on any day (the count of
placed courses enrolling the student on that day — hence also of occupied
slots — is at most 4). -/
theorem claim2_daily_cap_of_successful_attempt
    (df : List SRow) (ci : CI) (subjects : List String) (g : RNG)
    (h : (attempt_go ci subjects (course_students df) empty_sched [] g).1 = true) :
    ∀ sid day,
      ((attempt_go ci subjects (course_students df) empty_sched [] g).2.2.1).countP
        (fun e => e.day == day &&
          (dlookup (course_students df) e.subject).contains sid) ≤ 4 := by
  intro sid day
  obtain ⟨hpres, hmap, hlen, hiff, hfail, hcf, hdc⟩ :=
    attempt_fresh_spec ci subjects (course_students df) g (course_students_nodup df)
  have h2 := hdc sid day
  rwa [length_sched_of] at h2

/-- **C3**: on any candidate slot that survives the scan (no student
triggers a hard-constraint skip — the only slots whose penalty is ever
used), the accumulated penalty is the sum over all enrolled students of
exactly: −1000 for a student with 0 classes already on that day, −500 for
1, +100 for 2, and +500 for 3 or more. -/
theorem claim3_penalty (sched : Sched) (enrolled : List String) (day slot : String)
    (h1 : (scan_students sched day slot enrolled).1 = false)
    (h2 : (scan_students sched day slot enrolled).2.1 = false) :
    (scan_students sched day slot enrolled).2.2 =
      (enrolled.map fun st =>
        if (sched st day).length = 0 then (-1000 : Int)
        else if (sched st day).length = 1 then -500
        else if (sched st day).length = 2 then 100
        else 500).sum := by
  have hok : slot_ok sched enrolled (day, slot) := ⟨h1, h2⟩
  have hfeas := (slot_ok_iff enrolled sched (day, slot)).mp hok
  rw [scan_students_penalty enrolled sched day slot hfeas]
  rfl

/-- **C4**: when the solver picks a slot for a course, the chosen slot is
hard-feasible, its penalty is minimal among all hard-feasible candidates,
and it is the first candidate attaining that minimum in the shuffled
candidate order (every feasible candidate strictly before it has a strictly
larger penalty): selection is by score, not first-fit. -/
theorem claim4_slot_selection (sched : Sched) (enrolled : List String)
    (cands : List (String × String)) (ds : String × String)
    (h : pick_best sched enrolled cands = some ds) :
    slot_ok sched enrolled ds ∧
    (∀ c ∈ cands, slot_ok sched enrolled c →
      slot_penalty sched enrolled ds ≤ slot_penalty sched enrolled c) ∧
    ∃ pre post, cands = pre ++ ds :: post ∧
      ∀ c ∈ pre, slot_ok sched enrolled c →
        slot_penalty sched enrolled ds < slot_penalty sched enrolled c := by
  rw [pick_best_eq] at h
  obtain ⟨b2, hb2, hfst⟩ := Option.map_eq_some'.mp h
  obtain ⟨hp, hok, pre, post, hsplit, hmin, hall⟩ :=
    pick_best_rec_some sched enrolled cands b2.1 b2.2 (by rw [hb2])
  subst hfst
  refine ⟨hok, ?_, pre, post, hsplit, ?_⟩
  · intro c hc hokc
    rw [← hp]
    exact hall c hc hokc
  · intro c hc hokc
    rw [← hp]
    exact hmin c hc hokc

/-- **C5**: the solver performs at most 100 attempts; it returns the
timetable of the first attempt in which every course was placed (all
attempts before the returned one failed), and when no attempt succeeds
within the budget it returns the final attempt's timetable, which contains
exactly the courses placed before that attempt's first infeasible course —
an attempt aborts at the first course whose every candidate slot is
infeasible. -/
theorem claim5_restart_budget (df : List SRow) (ci : CI) (g : RNG) :
    spec_attempts ci 100 (course_students df) (ci.map Prod.fst) g ≠ [] ∧
    (spec_attempts ci 100 (course_students df) (ci.map Prod.fst) g).length ≤ 100 ∧
    generate_timetable df ci g =
      ((spec_attempts ci 100 (course_students df) (ci.map Prod.fst) g).getLastD
        (true, [])).2 ∧
    (∀ i, i + 1 < (spec_attempts ci 100 (course_students df) (ci.map Prod.fst) g).length →
      ((spec_attempts ci 100 (course_students df) (ci.map Prod.fst) g).getD i
        (true, [])).1 = false) ∧
    (((spec_attempts ci 100 (course_students df) (ci.map Prod.fst) g).getLastD
        (true, [])).1 = true ∨
      (spec_attempts ci 100 (course_students df) (ci.map Prod.fst) g).length = 100) ∧
    (∀ ok tt, (ok, tt) ∈ spec_attempts ci 100 (course_students df) (ci.map Prod.fst) g →
      (ok = true → (tt.map Entry.subject).Perm (ci.map Prod.fst)) ∧
      (ok = false → ∃ subjects' : List String,
        subjects'.Perm (ci.map Prod.fst) ∧
        tt.length < subjects'.length ∧
        tt.map Entry.subject = subjects'.take tt.length ∧
        ∃ gf, pick_best (sched_of (course_students df) tt)
          (dlookup (course_students df) (subjects'.getD tt.length ""))
          ((shuffle gf available_times).1) = none)) := by
  obtain ⟨hne, hlen, hsolve, hall, hlast⟩ :=
    solve_go_trace ci 100 (course_students df) (ci.map Prod.fst) g (by omega)
  refine ⟨hne, hlen, ?_, hall, hlast, ?_⟩
  · rw [generate_timetable_def]
    exact hsolve
  · intro ok tt hmem
    obtain ⟨s2, hperm, hmap, hlen2, hiff, hfail⟩ :=
      spec_attempts_mem ci 100 (course_students df) (ci.map Prod.fst) g
        (course_students_nodup df) ok tt hmem
    constructor
    · intro hok
      have hl : tt.length = s2.length := hiff.mp hok
      have heq : tt.map Entry.subject = s2 := by
        rw [hmap, hl, List.take_length]
      rw [heq]
      exact hperm
    · intro hokf
      refine ⟨s2, hperm, ?_, hmap, hfail hokf⟩
      rcases Nat.lt_or_ge tt.length s2.length with hlt | hge
      · exact hlt
      · have heq : tt.length = s2.length := le_antisymm hlen2 hge
        have hok : ok = true := hiff.mpr heq
        rw [hokf] at hok
        cases hok

/-- **C6 (counterexample)**: the claim says the solver's output includes,
alongside the per-course records, an explicit completeness flag
distinguishing a complete assignment from a partial one.  The code returns
only the record list.  Reading "the output includes such a flag" as the
existence of any function of the output deciding completeness, the claim is
refuted: a complete 20-course run and a budget-exhausted partial 21-course
run (one student in 21 courses cannot fit in 20 slots) produce identical
outputs, so no function of the output distinguishes them. -/
theorem claim6_counterexample :
    ¬ ∃ flag : List Entry → Bool,
      ∀ (df : List SRow) (ci : CI) (g : RNG),
        (flag (generate_timetable df ci g) = true ↔
          covers ci (generate_timetable df ci g)) := by
  rintro ⟨flag, hflag⟩
  have h1 : flag (generate_timetable df20 ci20 g0) = true :=
    (hflag df20 ci20 g0).mpr covers20
  have h2 := hflag df21 ci21 g0
  rw [← run20_run21_eq] at h2
  have h3 : covers ci21 (generate_timetable df20 ci20 g0) := h2.mp h1
  rw [run20_run21_eq] at h3
  exact not_covers21 h3

/-- **C6 (amended)**: the solver's output is only the list of per-course
records (subject, instructor, day, time slot, room label); it carries no
completeness flag, and completeness cannot be recovered from the output: a
run that placed its whole catalog and a run that exhausted the budget with
a course missing can return identical outputs. -/
theorem claim6_amended_no_flag :
    ∃ (df1 df2 : List SRow) (ci1 ci2 : CI) (g : RNG),
      covers ci1 (generate_timetable df1 ci1 g) ∧
      ¬ covers ci2 (generate_timetable df2 ci2 g) ∧
      generate_timetable df1 ci1 g = generate_timetable df2 ci2 g :=
  ⟨df20, df21, ci20, ci21, g0, covers20, not_covers21, run20_run21_eq⟩

/-- **C7 (counterexample)**: the claim says randomness is seedable at the
solver's interface, the result being a pure function of (enrollment index,
restart budget, seed).  The code's `generate_timetable(student_df,
course_info)` takes no seed and no budget parameter: it draws from the
ambient, never-seeded global generator, and the budget is the literal 100.
Two runs with identical interface inputs but different ambient generator
states produce different timetables, so the result is not a function of the
interface inputs. -/
theorem claim7_counterexample :
    generate_timetable [] [("A", "F")] ⟨czero, 0⟩ ≠
      generate_timetable [] [("A", "F")] ⟨fun _ => 1, 0⟩ := by
  decide

/-- **C7 (amended)**: determinism holds relative to the generator state:
the output depends on the generator only through the stream of draws it
will produce (the semantics of a fixed seed), so two runs with the same
student frame, the same catalog and pointwise-equal draw streams return
bit-identical timetables. -/
theorem claim7_amended_determinism (df : List SRow) (ci : CI) (g g' : RNG)
    (h : RNG.equiv g g') :
    generate_timetable df ci g = generate_timetable df ci g' :=
  generate_timetable_equiv df ci h

/-- **C8**: in every timetable the solver returns (complete or partial),
each course appears at most once and only catalog courses appear; in a
fully successful attempt every course of the catalog appears exactly once
(the placed subjects are a permutation of the catalog). -/
theorem claim8_each_course_once (df : List SRow) (ci : CI) (g : RNG)
    (hnd : (ci.map Prod.fst).Nodup) :
    ((generate_timetable df ci g).map Entry.subject).Nodup ∧
    (∀ e ∈ generate_timetable df ci g, e.subject ∈ ci.map Prod.fst) ∧
    (∀ (subjects : List String) (ga : RNG),
      subjects.Perm (ci.map Prod.fst) →
      (attempt_go ci subjects (course_students df) empty_sched [] ga).1 = true →
      (((attempt_go ci subjects (course_students df) empty_sched [] ga).2.2.1).map
        Entry.subject).Perm (ci.map Prod.fst)) := by
  obtain ⟨hpres, s2, hperm, hmap⟩ :=
    solve_go_spec ci 100 (course_students df) (ci.map Prod.fst) g
      (course_students_nodup df)
  have hgt := generate_timetable_def df ci g
  refine ⟨?_, ?_, ?_⟩
  · rw [hgt, hmap]
    exact List.Nodup.sublist (List.take_sublist _ _) (hperm.nodup_iff.mpr hnd)
  · intro e he
    rw [hgt] at he
    have hm : e.subject ∈ ((solve_go ci 100 (course_students df)
        (ci.map Prod.fst) g).1).map Entry.subject := List.mem_map_of_mem _ he
    rw [hmap] at hm
    exact hperm.subset (List.mem_of_mem_take hm)
  · intro subjects ga hp hok
    obtain ⟨hpres2, hmap2, hlen2, hiff2, hfail2, hcf2, hdc2⟩ :=
      attempt_fresh_spec ci subjects (course_students df) ga (course_students_nodup df)
    have hl := hiff2.mp hok
    have heq : ((attempt_go ci subjects (course_students df) empty_sched [] ga).2.2.1).map
        Entry.subject = subjects := by
      rw [hmap2, hl, List.take_length]
    rw [heq]
    exact hp

/-- **C9**: a solving run never mutates the enrollment index: as a mapping,
the `course_students` dictionary reads identically before and after the
whole 100-attempt run (the defaultdict may record an explicit empty set for
a course that was accessed and had no enrollments, which is the same
mapping), and the instructor map is only ever read.  The state threaded
through `solve_go` is the dictionary after all attempts. -/
theorem claim9_enrollment_index_not_mutated (df : List SRow) (ci : CI) (g : RNG) :
    ∀ k, dlookup (solve_go ci 100 (course_students df) (ci.map Prod.fst) g).2 k =
      dlookup (course_students df) k :=
  (solve_go_spec ci 100 (course_students df) (ci.map Prod.fst) g
    (course_students_nodup df)).1

/-- The selection over a course with no enrolled students: the scan accepts
every candidate with penalty 0, so the loop keeps the first candidate. -/
theorem pick_best_rec_empty (sched : Sched) :
    ∀ (cands : List (String × String)),
      pick_best_rec sched [] cands = cands.head?.map (fun c => (c, (0 : Int)))
  | [] => rfl
  | c :: rest => by
    rw [pick_best_rec, pick_best_rec_empty sched rest]
    cases rest with
    | nil => simp [scan_students]
    | cons c2 r2 => simp [scan_students, lt_irrefl]

theorem pick_best_empty (sched : Sched) (cands : List (String × String)) :
    pick_best sched [] cands = cands.head? := by
  rw [pick_best_eq, pick_best_rec_empty]
  cases cands <;> simp

/-- **C10**: a course with an empty enrollment set never fails an attempt:
every shuffled candidate slot is hard-feasible for it with accumulated
penalty 0, and it is placed at the first slot of that attempt's shuffled
candidate order (the schedule state is unchanged, since no student's list
is appended to). -/
theorem claim10_empty_enrollment_always_placed (ci : CI) (subj : String)
    (rest : List String) (cs : CS) (sched : Sched) (tt : List Entry) (g : RNG)
    (h : dlookup cs subj = []) :
    (∀ c ∈ (shuffle g available_times).1,
      slot_ok sched (dlookup cs subj) c ∧ slot_penalty sched (dlookup cs subj) c = 0) ∧
    ∃ d s : String,
      ((shuffle g available_times).1).head? = some (d, s) ∧
      pick_best sched (dlookup cs subj) ((shuffle g available_times).1) = some (d, s) ∧
      attempt_go ci (subj :: rest) cs sched tt g =
        attempt_go ci rest (dget cs subj).2 sched
          (tt ++ [⟨subj, info_get ci subj, d, s,
            "CR-" ++ toString (randint (shuffle g available_times).2 1 8).1⟩])
          (randint (shuffle g available_times).2 1 8).2 := by
  constructor
  · intro c hc
    rw [h]
    exact ⟨⟨rfl, rfl⟩, rfl⟩
  · have hlen : ((shuffle g available_times).1).length = 20 := by
      rw [shuffle_length]
      rfl
    obtain ⟨c0, restc, hc⟩ : ∃ c0 restc, (shuffle g available_times).1 = c0 :: restc := by
      cases hsh : (shuffle g available_times).1 with
      | nil => rw [hsh] at hlen; cases hlen
      | cons a l => exact ⟨a, l, rfl⟩
    refine ⟨c0.1, c0.2, ?_, ?_, ?_⟩
    · rw [hc]
      rfl
    · rw [h, pick_best_empty, hc]
      rfl
    · simp only [attempt_go]
      rw [dget_fst, h, pick_best_empty, hc]
      rfl

/-! ## Concrete witnesses -/

def wdf : List SRow := [⟨"S1", "A"⟩, ⟨"S1", "B"⟩]

def wci : CI := [("A", "FA"), ("B", "FB")]

theorem claim1_witness :
    (attempt_go wci ["A", "B"] (course_students wdf) empty_sched [] g0).1 = true ∧
    ∀ sid day slot,
      ((attempt_go wci ["A", "B"] (course_students wdf) empty_sched [] g0).2.2.1).countP
        (fun e => e.day == day && e.time_slot == slot &&
          (dlookup (course_students wdf) e.subject).contains sid) ≤ 1 :=
  ⟨by decide, claim1_clash_free_of_successful_attempt wdf wci ["A", "B"] g0 (by decide)⟩

theorem claim2_witness :
    (attempt_go wci ["A", "B"] (course_students wdf) empty_sched [] g0).1 = true ∧
    ∀ sid day,
      ((attempt_go wci ["A", "B"] (course_students wdf) empty_sched [] g0).2.2.1).countP
        (fun e => e.day == day &&
          (dlookup (course_students wdf) e.subject).contains sid) ≤ 4 :=
  ⟨by decide, claim2_daily_cap_of_successful_attempt wdf wci ["A", "B"] g0 (by decide)⟩

theorem claim3_witness :
    ((scan_students empty_sched "Monday" "09:00 AM - 10:30 AM" ["S1", "S2"]).1 = false ∧
     (scan_students empty_sched "Monday" "09:00 AM - 10:30 AM" ["S1", "S2"]).2.1 = false) ∧
    (scan_students empty_sched "Monday" "09:00 AM - 10:30 AM" ["S1", "S2"]).2.2 =
      ((["S1", "S2"]).map fun st =>
        if (empty_sched st "Monday").length = 0 then (-1000 : Int)
        else if (empty_sched st "Monday").length = 1 then -500
        else if (empty_sched st "Monday").length = 2 then 100
        else 500).sum :=
  ⟨⟨by decide, by decide⟩,
   claim3_penalty empty_sched ["S1", "S2"] "Monday" "09:00 AM - 10:30 AM"
     (by decide) (by decide)⟩

theorem claim4_witness :
    pick_best empty_sched ["S1"] [("Monday", "09:00 AM - 10:30 AM")] =
      some ("Monday", "09:00 AM - 10:30 AM") ∧
    (slot_ok empty_sched ["S1"] ("Monday", "09:00 AM - 10:30 AM") ∧
     (∀ c ∈ [("Monday", "09:00 AM - 10:30 AM")],
       slot_ok empty_sched ["S1"] c →
       slot_penalty empty_sched ["S1"] ("Monday", "09:00 AM - 10:30 AM") ≤
         slot_penalty empty_sched ["S1"] c) ∧
     ∃ pre post,
       [("Monday", "09:00 AM - 10:30 AM")] =
         pre ++ ("Monday", "09:00 AM - 10:30 AM") :: post ∧
       ∀ c ∈ pre, slot_ok empty_sched ["S1"] c →
         slot_penalty empty_sched ["S1"] ("Monday", "09:00 AM - 10:30 AM") <
           slot_penalty empty_sched ["S1"] c) :=
  ⟨by decide,
   claim4_slot_selection empty_sched ["S1"] [("Monday", "09:00 AM - 10:30 AM")]
     ("Monday", "09:00 AM - 10:30 AM") (by decide)⟩

theorem claim7_witness :
    RNG.equiv ⟨czero, 0⟩ ⟨czero, 5⟩ ∧
    generate_timetable wdf wci ⟨czero, 0⟩ = generate_timetable wdf wci ⟨czero, 5⟩ :=
  ⟨fun _ => rfl,
   claim7_amended_determinism wdf wci ⟨czero, 0⟩ ⟨czero, 5⟩ (fun _ => rfl)⟩

theorem claim8_witness :
    ((wci.map Prod.fst).Nodup) ∧
    (((generate_timetable wdf wci g0).map Entry.subject).Nodup ∧
     (∀ e ∈ generate_timetable wdf wci g0, e.subject ∈ wci.map Prod.fst) ∧
     (∀ (subjects : List String) (ga : RNG),
       subjects.Perm (wci.map Prod.fst) →
       (attempt_go wci subjects (course_students wdf) empty_sched [] ga).1 = true →
       (((attempt_go wci subjects (course_students wdf) empty_sched [] ga).2.2.1).map
         Entry.subject).Perm (wci.map Prod.fst))) :=
  ⟨by decide, claim8_each_course_once wdf wci g0 (by decide)⟩

theorem claim10_witness :
    dlookup ([] : CS) "A" = [] ∧
    ((∀ c ∈ (shuffle g0 available_times).1,
       slot_ok empty_sched (dlookup ([] : CS) "A") c ∧
       slot_penalty empty_sched (dlookup ([] : CS) "A") c = 0) ∧
     ∃ d s : String,
       ((shuffle g0 available_times).1).head? = some (d, s) ∧
       pick_best empty_sched (dlookup ([] : CS) "A")
         ((shuffle g0 available_times).1) = some (d, s) ∧
       attempt_go wci ["A"] ([] : CS) empty_sched [] g0 =
         attempt_go wci [] (dget ([] : CS) "A").2 empty_sched
           ([] ++ [⟨"A", info_get wci "A", d, s,
             "CR-" ++ toString (randint (shuffle g0 available_times).2 1 8).1⟩])
           (randint (shuffle g0 available_times).2 1 8).2) :=
  ⟨by decide,
   claim10_empty_enrollment_always_placed wci "A" [] ([] : CS) empty_sched [] g0
     (by decide)⟩
